import Mathlib

/-
Verification of the acsv streaming CSV library (reader state machine and
writer quoting engine), shallowly embedded over lists of characters.
The reader embedding follows src/acsv/reader.py (the scanner character
classification and the five-state row assembler inside Reader.__aiter__);
the writer embedding follows src/acsv/writer.py (strategy dispatch in
Writer.__init__, the six quote functions, _formatrow and writerow).
-/

namespace Acsv

/-- Quoting modes, mirroring csv.QUOTE_ALL / QUOTE_MINIMAL /
QUOTE_NONNUMERIC / QUOTE_NONE. -/
inductive Quoting where
  | qAll
  | qMinimal
  | qNonnumeric
  | qNone
deriving DecidableEq, Repr

/-- Dialect record (dialect.py / csv.Dialect): delimiter, optional quote
char, optional escape char, doublequote flag, skip-initial-space flag,
line terminator, quoting mode. -/
structure Dialect where
  delimiter : Char
  quotechar : Option Char
  escapechar : Option Char
  doublequote : Bool
  skipinitialspace : Bool
  lineterminator : List Char
  quoting : Quoting
deriving DecidableEq, Repr

/-- Token kinds produced by the scanner (reader.py _Token). The scanner
attaches the literal character and position; position is diagnostic only
and omitted here. -/
inductive Token where
  | CHAR
  | DELIMITER
  | QUOTE
  | ESCAPE_CHAR
  | CR
  | LF
  | WS
  | EOF
deriving DecidableEq, Repr

/-- Character classification from _Scanner.__aiter__: the match statement
tries, in order: quote char, escape char (pattern never matches when the
dialect has no escape char), CR, LF, delimiter, literal space, else CHAR.
The source's None pattern (EOF) is unreachable for an actual character and
is handled at end of input by runReader. -/
def classify (d : Dialect) (c : Char) : Token :=
  if d.quotechar = some c then .QUOTE
  else if d.escapechar = some c then .ESCAPE_CHAR
  else if c = '\r' then .CR
  else if c = '\n' then .LF
  else if c = d.delimiter then .DELIMITER
  else if c = ' ' then .WS
  else .CHAR

/-- Row assembler states (reader.py _State). -/
inductive RState where
  | BEGIN_FIELD
  | FIELD
  | QUOTED_FIELD
  | EXPECT_QUOTE_OR_FIELD_TERM
  | ESCAPE
deriving DecidableEq, Repr

/-- Mutable context of Reader.__aiter__: current state, field buffer,
fields of the current line, and the captured fieldnames. -/
structure RConf where
  state : RState
  field : List Char
  line : List (List Char)
  fieldnames : Option (List (List Char))
deriving DecidableEq, Repr

/-- emit(character) in Reader.__aiter__: write the character to the field
buffer; if the state is BEGIN_FIELD it becomes FIELD (no other state is
changed). -/
def emit (conf : RConf) (c : Char) : RConf :=
  { conf with
      field := conf.field ++ [c]
      state := if conf.state = .BEGIN_FIELD then .FIELD else conf.state }

/-- new_field() in Reader.__aiter__: append the buffer to the line, clear
the buffer, reset the state to BEGIN_FIELD. -/
def newField (conf : RConf) : RConf :=
  { conf with
      line := conf.line ++ [conf.field]
      field := []
      state := .BEGIN_FIELD }

/-- The fieldnames update of new_line(): the first finalized line is
captured; later lines leave the capture unchanged. -/
def fnsUpdate (fns : Option (List (List Char))) (row : List (List Char)) :
    Option (List (List Char)) :=
  match fns with
  | Option.none => some row
  | some x => some x

/-- new_line() in Reader.__aiter__: if fieldnames are unset they become the
current line; the line is yielded when non-empty; the line is cleared.
Returns the updated context and the yielded rows. -/
def newLine (conf : RConf) : RConf × List (List (List Char)) :=
  ({ conf with line := [], fieldnames := fnsUpdate conf.fieldnames conf.line },
   if conf.line = [] then [] else [conf.line])

/-- Result of one row-assembler transition: either a successor context
with the rows yielded by this step, or the bad_state error (CsvError,
MalformedRow). -/
inductive StepOut where
  | next (conf : RConf) (yielded : List (List (List Char)))
  | fail
deriving DecidableEq, Repr

/-- One transition of the match statement in Reader.__aiter__, keyed by the
classified token of the incoming character; the guard order follows the
source case order. The EOF token is never produced by classify (end of
input is handled by runReader), and the catch-all bad_state branch is kept
for the combinations the source sends there (QUOTE while in ESCAPE, and an
escape-char token with no configured escape char). -/
def step (d : Dialect) (conf : RConf) (c : Char) : StepOut :=
  match classify d c with
  | .CHAR =>
      if conf.state = .EXPECT_QUOTE_OR_FIELD_TERM then .fail
      else .next (emit conf c) []
  | .DELIMITER =>
      if conf.state = .QUOTED_FIELD ∨ conf.state = .ESCAPE then
        .next (emit conf d.delimiter) []
      else .next (newField conf) []
  | .QUOTE =>
      if conf.state = .BEGIN_FIELD then .next { conf with state := .QUOTED_FIELD } []
      else if conf.state = .FIELD then .fail
      else if conf.state = .QUOTED_FIELD then
        .next { conf with state := .EXPECT_QUOTE_OR_FIELD_TERM } []
      else if conf.state = .EXPECT_QUOTE_OR_FIELD_TERM then
        .next { conf with field := conf.field ++ [c], state := .QUOTED_FIELD } []
      else .fail
  | .ESCAPE_CHAR =>
      match d.escapechar with
      | some e =>
          if conf.state = .ESCAPE then
            .next { conf with field := conf.field ++ [e] } []
          else .next { conf with state := .ESCAPE } []
      | Option.none => .fail
  | .CR => .next conf []
  | .LF =>
      if conf.state = .QUOTED_FIELD then
        .next { conf with field := conf.field ++ ['\n'] } []
      else
        let conf2 := newField conf
        let p := newLine conf2
        .next p.1 p.2
  | .WS =>
      if d.skipinitialspace ∧ conf.state = .BEGIN_FIELD then .next conf []
      else .next (emit conf c) []
  | .EOF => .fail

/-- Overall outcome of a parse pass: the rows yielded, the fieldnames
captured, and whether the pass completed (ok = false means a CsvError was
raised, ending the pass). -/
structure ReadResult where
  rows : List (List (List Char))
  fieldnames : Option (List (List Char))
  ok : Bool
deriving DecidableEq, Repr

/-- The EOF branch of Reader.__aiter__: new_field(), then yield whatever
new_line() produces, then stop. -/
def eofResult (conf : RConf) : ReadResult :=
  let conf2 := newField conf
  let p := newLine conf2
  ⟨p.2, p.1.fieldnames, true⟩

/-- Drive the row assembler over the remaining characters; the scanner
emits one EOF token after the last character, handled by the empty-list
case. A bad_state error stops the pass immediately: no further rows. -/
def runReader (d : Dialect) (conf : RConf) : List Char → ReadResult
  | [] => eofResult conf
  | c :: cs =>
      match step d conf c with
      | .fail => ⟨[], conf.fieldnames, false⟩
      | .next conf2 ys =>
          let r := runReader d conf2 cs
          ⟨ys ++ r.rows, r.fieldnames, r.ok⟩

/-- A whole parse pass of Reader.__aiter__ from the initial context. -/
def parse (d : Dialect) (cs : List Char) : ReadResult :=
  runReader d ⟨.BEGIN_FIELD, [], [], Option.none⟩ cs

/-- The csv "excel" default dialect: comma delimiter, double-quote quote
char, no escape char, doublequote on, no initial-space skipping, CRLF
terminator, minimal quoting. -/
def excel : Dialect :=
  ⟨',', some '"', Option.none, true, false, ['\r', '\n'], .qMinimal⟩

/-- Field values accepted by the writer (str or numeric); a numeric value
carries its decimal text rendering, since the quote functions begin with
str(value). -/
inductive Value where
  | vstr (s : List Char)
  | vnum (s : List Char)
deriving DecidableEq, Repr

/-- str(value) as used at the top of each quote function. -/
def Value.str : Value → List Char
  | .vstr s => s
  | .vnum s => s

/-- Errors on the write path: util.none_throws raises ValueError; the
writer constructor can raise CsvError on an unsupported quoting value. -/
inductive WErr where
  | valueError
  | csvError
deriving DecidableEq, Repr

deriving instance DecidableEq for Except

/-- util.none_throws: unwrap an optional or raise ValueError. -/
def noneThrows : Option α → Except WErr α
  | Option.none => .error .valueError
  | some a => .ok a

/-- Python str.replace with a single-character pattern: each occurrence of
old is replaced by the replacement sequence. -/
def replaceChar (s : List Char) (old : Char) (sub : List Char) : List Char :=
  match s with
  | [] => []
  | c :: rest => (if c = old then sub else [c]) ++ replaceChar rest old sub

/-- The six encoding strategies dispatched once in Writer.__init__ by
(quoting mode, doublequote). -/
inductive Strategy where
  | allDouble
  | allEscape
  | minimalDouble
  | minimalEscape
  | nonnumericDouble
  | nonnumericEscape
  | noQuote
deriving DecidableEq, Repr

/-- The writer after construction: the dialect, the three precomputed
escape sequences of Writer.__init__, and the selected strategy. -/
structure WriterCfg where
  dialect : Dialect
  escapeDoublequote : Option (List Char)
  escapeQuoteSeq : Option (List Char)
  escapeDelimSeq : Option (List Char)
  strategy : Strategy
deriving DecidableEq, Repr

/-- Writer.__init__: precompute quotechar*2, escapechar+quotechar (via
none_throws, so an escape char without a quote char fails construction),
escapechar+delimiter, and select the strategy by (quoting, doublequote).
All four quoting values are covered, so the source's final CsvError branch
is unreachable. -/
def mkWriter (d : Dialect) : Except WErr WriterCfg := do
  let eDq : Option (List Char) := d.quotechar.map (fun q => [q, q])
  let eQs : Option (List Char) ←
    match d.escapechar with
    | Option.none => pure Option.none
    | some e => do
        let q ← noneThrows d.quotechar
        pure (some [e, q])
  let eDs : Option (List Char) :=
    match d.escapechar with
    | Option.none => Option.none
    | some e => some [e, d.delimiter]
  let strat : Strategy :=
    match d.quoting, d.doublequote with
    | .qAll, true => .allDouble
    | .qAll, false => .allEscape
    | .qMinimal, true => .minimalDouble
    | .qMinimal, false => .minimalEscape
    | .qNonnumeric, true => .nonnumericDouble
    | .qNonnumeric, false => .nonnumericEscape
    | .qNone, _ => .noQuote
  pure ⟨d, eDq, eQs, eDs, strat⟩

/-- Writer._quote_all_doublequote: always wrap; every internal quote char
is doubled. -/
def quoteAllDouble (w : WriterCfg) (v : Value) : Except WErr (List Char) := do
  let q ← noneThrows w.dialect.quotechar
  let s := v.str
  let s2 ← do
    let seq ← noneThrows w.escapeDoublequote
    pure (replaceChar s q seq)
  pure ([q] ++ s2 ++ [q])

/-- Writer._quote_all_escape: always wrap; when the quote char is present
the source replaces it with self._escape_doublequote (the doubled quote
char), not with the escapechar+quotechar sequence. -/
def quoteAllEscape (w : WriterCfg) (v : Value) : Except WErr (List Char) := do
  let q ← noneThrows w.dialect.quotechar
  let s := v.str
  let s2 ←
    if q ∈ s then do
      let seq ← noneThrows w.escapeDoublequote
      pure (replaceChar s q seq)
    else pure s
  pure ([q] ++ s2 ++ [q])

/-- Writer._quote_minimal_doublequote: wrap when the quote char (doubling
it) or the delimiter occurs; the delimiter test runs on the value after
quote doubling. -/
def quoteMinimalDouble (w : WriterCfg) (v : Value) : Except WErr (List Char) := do
  let q ← noneThrows w.dialect.quotechar
  let s := v.str
  let p ←
    if q ∈ s then do
      let seq ← noneThrows w.escapeDoublequote
      pure (replaceChar s q seq, true)
    else pure (s, false)
  let needQuotes := if w.dialect.delimiter ∈ p.1 then true else p.2
  if needQuotes then pure ([q] ++ p.1 ++ [q]) else pure p.1

/-- Writer._quote_minimal_escape: replace internal quote chars with
escapechar+quotechar; wrap when the delimiter occurs in the replaced
value. -/
def quoteMinimalEscape (w : WriterCfg) (v : Value) : Except WErr (List Char) := do
  let q ← noneThrows w.dialect.quotechar
  let s := v.str
  let s2 ←
    if q ∈ s then do
      let seq ← noneThrows w.escapeQuoteSeq
      pure (replaceChar s q seq)
    else pure s
  if w.dialect.delimiter ∈ s2 then pure ([q] ++ s2 ++ [q]) else pure s2

/-- Writer._quote_nonnumeric_doublequote: strings use the ALL+doublequote
strategy, numbers the MINIMAL+escape strategy. -/
def quoteNonnumericDouble (w : WriterCfg) (v : Value) : Except WErr (List Char) :=
  match v with
  | .vstr _ => quoteAllDouble w v
  | .vnum _ => quoteMinimalEscape w v

/-- Writer._quote_nonnumeric_escape: strings use the ALL+escape strategy,
numbers the MINIMAL+escape strategy. -/
def quoteNonnumericEscape (w : WriterCfg) (v : Value) : Except WErr (List Char) :=
  match v with
  | .vstr _ => quoteAllEscape w v
  | .vnum _ => quoteMinimalEscape w v

/-- Writer._quote_none: never wrap; when the delimiter occurs it is
replaced by escapechar+delimiter, unwrapping that sequence with
none_throws (a ValueError at that call when no escape char was
configured). -/
def quoteNone (w : WriterCfg) (v : Value) : Except WErr (List Char) :=
  let s := v.str
  if w.dialect.delimiter ∈ s then do
    let seq ← noneThrows w.escapeDelimSeq
    pure (replaceChar s w.dialect.delimiter seq)
  else pure s

/-- self._quote: the strategy selected at construction. -/
def quoteValue (w : WriterCfg) (v : Value) : Except WErr (List Char) :=
  match w.strategy with
  | .allDouble => quoteAllDouble w v
  | .allEscape => quoteAllEscape w v
  | .minimalDouble => quoteMinimalDouble w v
  | .minimalEscape => quoteMinimalEscape w v
  | .nonnumericDouble => quoteNonnumericDouble w v
  | .nonnumericEscape => quoteNonnumericEscape w v
  | .noQuote => quoteNone w v

/-- The loop of Writer._formatrow after the first field: each further
field is encoded first and then written as delimiter ++ encoding. -/
def formatRest (w : WriterCfg) : List Value → Except WErr (List Char)
  | [] => pure []
  | v :: rest => do
      let s ← quoteValue w v
      let restS ← formatRest w rest
      pure ([w.dialect.delimiter] ++ s ++ restS)

/-- Writer._formatrow: the line terminator is written first when a row was
already written (lazy, pre-pended terminator); then the first encoded
field, then delimiter-prefixed encodings of the remaining fields. An
encoding error propagates and nothing reaches the sink for this row. -/
def formatRow (w : WriterCfg) (needsNewline : Bool) (row : List Value) :
    Except WErr (List Char) :=
  let pre := if needsNewline then w.dialect.lineterminator else []
  match row with
  | [] => pure pre
  | v :: rest => do
      let s ← quoteValue w v
      let restS ← formatRest w rest
      pure (pre ++ s ++ restS)

/-- The writer's mutable state: the _needs_newline flag (false at
construction) and the text written to the sink so far. -/
structure WState where
  needsNewline : Bool
  out : List Char
deriving DecidableEq, Repr

/-- Writer.writerow: write _formatrow's text to the sink, then set
_needs_newline. -/
def writerow (w : WriterCfg) (st : WState) (row : List Value) :
    Except WErr WState := do
  let line ← formatRow w st.needsNewline row
  pure ⟨true, st.out ++ line⟩

/-- Writer.writerows: writerow for each row in order. -/
def writerows (w : WriterCfg) (st : WState) : List (List Value) → Except WErr WState
  | [] => pure st
  | row :: rest => do
      let st2 ← writerow w st row
      writerows w st2 rest

/-- The encoding of one row by itself (no terminator): the per-row
encoding the formatter joins with terminators. -/
def rowEnc (w : WriterCfg) (row : List Value) : Except WErr (List Char) :=
  formatRow w false row

/-- Encode every row by itself, propagating the first error. -/
def rowsEnc (w : WriterCfg) : List (List Value) → Except WErr (List (List Char))
  | [] => pure []
  | row :: rest => do
      let e ← rowEnc w row
      let es ← rowsEnc w rest
      pure (e :: es)

/-- Join pieces with a separator between consecutive pieces (none before
the first, none after the last). -/
def joinWith (sep : List Char) : List (List Char) → List Char
  | [] => []
  | [x] => x
  | x :: y :: rest => x ++ sep ++ joinWith sep (y :: rest)

/-- The lazily-prepended terminator layout: each piece after a first write
is preceded by the terminator. -/
def lazyJoin (term : List Char) (needsNewline : Bool) : List (List Char) → List Char
  | [] => []
  | e :: rest => (if needsNewline then term else []) ++ e ++ lazyJoin term true rest

/-- The ALL+doublequote encoding of one field under quote char q: wrap and
double internal quotes. -/
def encField (q : Char) (f : List Char) : List Char :=
  [q] ++ replaceChar f q [q, q] ++ [q]

/-- The excel dialect with a backslash escape char, as produced by
Reader(fp, escapechar = backslash). -/
def escDialect : Dialect :=
  ⟨',', some '"', some '\\', true, false, ['\r', '\n'], .qMinimal⟩

/-- A QUOTE_NONE dialect with no escape char configured. -/
def noQuoteDialect : Dialect :=
  ⟨',', some '"', Option.none, true, false, ['\r', '\n'], .qNone⟩

/-- QUOTE_ALL with doublequote disabled and a backslash escape char. -/
def allEscDialect : Dialect :=
  ⟨',', some '"', some '\\', false, false, ['\r', '\n'], .qAll⟩

/-- QUOTE_MINIMAL with doublequote disabled and a backslash escape char. -/
def minEscDialect : Dialect :=
  ⟨',', some '"', some '\\', false, false, ['\r', '\n'], .qMinimal⟩

/-- A degenerate MINIMAL+escape dialect whose escape char equals the
delimiter. -/
def minEscDelimDialect : Dialect :=
  ⟨',', some '"', some ',', false, false, ['\r', '\n'], .qMinimal⟩

/-- QUOTE_ALL with doublequote enabled and no escape char. -/
def allDoubleDialect : Dialect :=
  ⟨',', some '"', Option.none, true, false, ['\r', '\n'], .qAll⟩

/-- A dialect whose delimiter coincides with its quote char. -/
def coincideDialect : Dialect :=
  ⟨'"', some '"', Option.none, true, false, ['\r', '\n'], .qMinimal⟩

/-- The writer configuration constructed from the excel dialect. -/
def excelWriter : WriterCfg :=
  ⟨excel, some ['"', '"'], Option.none, Option.none, .minimalDouble⟩

@[simp]
theorem except_pure_eq (a : α) : (pure a : Except WErr α) = Except.ok a := rfl

@[simp]
theorem except_ok_bind (a : α) (f : α → Except WErr β) :
    (Except.ok a >>= f) = f a := rfl

@[simp]
theorem except_error_bind (e : WErr) (f : α → Except WErr β) :
    ((Except.error e : Except WErr α) >>= f) = Except.error e := rfl

/-- str.replace leaves a value without the pattern character unchanged. -/
theorem replaceChar_of_not_mem (s : List Char) (old : Char) (sub : List Char)
    (h : old ∉ s) : replaceChar s old sub = s := by
  induction s with
  | nil => rfl
  | cons c rest ih =>
      simp only [List.mem_cons, not_or] at h
      simp [replaceChar, ih h.2, Ne.symm h.1]

/-- Replacing the quote char by escapechar+quotechar neither adds nor
removes occurrences of any character other than the escape char. -/
theorem mem_replaceChar_iff (x q e : Char) (hxe : x ≠ e) :
    ∀ s : List Char, x ∈ replaceChar s q [e, q] ↔ x ∈ s := by
  intro s
  induction s with
  | nil => simp [replaceChar]
  | cons c rest ih =>
      by_cases hc : c = q
      · subst hc
        simp [replaceChar, ih, hxe]
      · simp [replaceChar, hc, ih]

/-- A row encoding split off from the live terminator flag: _formatrow
with the flag set writes the terminator first and then exactly the
flag-free encoding. -/
theorem formatRow_of_rowEnc (w : WriterCfg) (row : List Value) (b : Bool)
    (e : List Char) (h : rowEnc w row = .ok e) :
    formatRow w b row =
      .ok ((if b then w.dialect.lineterminator else []) ++ e) := by
  cases row with
  | nil =>
      simp [rowEnc, formatRow] at h
      simp [formatRow, ← h]
  | cons v rest =>
      cases hqv : quoteValue w v with
      | error err => simp [rowEnc, formatRow, hqv] at h
      | ok s =>
          cases hfr : formatRest w rest with
          | error err => simp [rowEnc, formatRow, hqv, hfr] at h
          | ok restS =>
              simp [rowEnc, formatRow, hqv, hfr] at h ⊢
              simp [← h]

/-- Output of a writerows run from an arbitrary state: each row encoding
is written with the terminator prepended exactly when a row was already
written. -/
theorem writerows_out (w : WriterCfg) :
    ∀ (rows : List (List Value)) (st : WState) (encs : List (List Char)),
      rowsEnc w rows = .ok encs →
      writerows w st rows =
        .ok ⟨st.needsNewline || !rows.isEmpty,
             st.out ++ lazyJoin w.dialect.lineterminator st.needsNewline encs⟩ := by
  intro rows
  induction rows with
  | nil =>
      intro st encs h
      simp [rowsEnc] at h
      subst h
      simp [writerows, lazyJoin]
  | cons row rest ih =>
      intro st encs h
      cases he : rowEnc w row with
      | error err => simp [rowsEnc, he] at h
      | ok e =>
          cases hes : rowsEnc w rest with
          | error err => simp [rowsEnc, he, hes] at h
          | ok es =>
              simp [rowsEnc, he, hes] at h
              have hfr := formatRow_of_rowEnc w row st.needsNewline e he
              simp [writerows, writerow, hfr, ← h,
                ih ⟨true, st.out ++ ((if st.needsNewline then
                  w.dialect.lineterminator else []) ++ e)⟩ es hes,
                lazyJoin, List.append_assoc]

/-- From a first write onward, the lazy layout is a leading terminator
before every piece. -/
theorem lazyJoin_true_eq (term : List Char) :
    ∀ encs : List (List Char),
      lazyJoin term true encs =
        if encs = [] then [] else term ++ joinWith term encs := by
  intro encs
  induction encs with
  | nil => simp [lazyJoin]
  | cons e rest ih =>
      rw [lazyJoin, ih]
      cases rest with
      | nil => simp [lazyJoin, joinWith]
      | cons y r => simp [joinWith, List.append_assoc]

/-- Before any write, the lazy layout equals joining with the terminator
between consecutive pieces. -/
theorem lazyJoin_false_eq_joinWith (term : List Char) :
    ∀ encs : List (List Char), lazyJoin term false encs = joinWith term encs := by
  intro encs
  cases encs with
  | nil => rfl
  | cons e rest =>
      rw [lazyJoin, lazyJoin_true_eq]
      cases rest with
      | nil => simp [joinWith]
      | cons y r => simp [joinWith, List.append_assoc]

/-- A step that neither yields nor fails just advances the context. -/
theorem runReader_cons_next (d : Dialect) (conf conf2 : RConf) (c : Char)
    (cs : List Char) (h : step d conf c = .next conf2 []) :
    runReader d conf (c :: cs) = runReader d conf2 cs := by
  simp [runReader, h]

/-- End of input: the scanner's one EOF token makes the assembler finalize
the pending field and line; the finalized line is never empty (new_field
always contributes one field), so it is always yielded. -/
theorem runReader_nil (d : Dialect) (conf : RConf) :
    runReader d conf [] =
      ⟨[conf.line ++ [conf.field]],
       fnsUpdate conf.fieldnames (conf.line ++ [conf.field]), true⟩ := by
  simp [runReader, eofResult, newField, newLine]

/-- An opening quote at field start enters QUOTED_FIELD without emitting. -/
theorem step_begin_quote (d : Dialect) (q : Char) (b : List Char)
    (l : List (List Char)) (fns : Option (List (List Char)))
    (hq : d.quotechar = some q) :
    step d ⟨.BEGIN_FIELD, b, l, fns⟩ q = .next ⟨.QUOTED_FIELD, b, l, fns⟩ [] := by
  have hcl : classify d q = .QUOTE := by simp [classify, hq]
  simp [step, hcl]

/-- A quote inside a quoted field moves to the closing-quote-or-terminator
state. -/
theorem step_quoted_quote (d : Dialect) (q : Char) (b : List Char)
    (l : List (List Char)) (fns : Option (List (List Char)))
    (hq : d.quotechar = some q) :
    step d ⟨.QUOTED_FIELD, b, l, fns⟩ q =
      .next ⟨.EXPECT_QUOTE_OR_FIELD_TERM, b, l, fns⟩ [] := by
  have hcl : classify d q = .QUOTE := by simp [classify, hq]
  simp [step, hcl]

/-- A second quote right after a closing quote appends one literal quote
char and returns to QUOTED_FIELD (doubled-quote escaping). -/
theorem step_expect_quote (d : Dialect) (q : Char) (b : List Char)
    (l : List (List Char)) (fns : Option (List (List Char)))
    (hq : d.quotechar = some q) :
    step d ⟨.EXPECT_QUOTE_OR_FIELD_TERM, b, l, fns⟩ q =
      .next ⟨.QUOTED_FIELD, b ++ [q], l, fns⟩ [] := by
  have hcl : classify d q = .QUOTE := by simp [classify, hq]
  simp [step, hcl]

/-- Inside a quoted field, any character that is not the quote char, CR or
LF — including the delimiter and spaces — is appended literally and the
state stays QUOTED_FIELD (the dialect has no escape char here). -/
theorem step_quoted_generic (d : Dialect) (q c : Char) (b : List Char)
    (l : List (List Char)) (fns : Option (List (List Char)))
    (hq : d.quotechar = some q) (hesc : d.escapechar = Option.none)
    (hcq : c ≠ q) (hcr : c ≠ '\r') (hcn : c ≠ '\n') :
    step d ⟨.QUOTED_FIELD, b, l, fns⟩ c =
      .next ⟨.QUOTED_FIELD, b ++ [c], l, fns⟩ [] := by
  have hqc : ¬ (q = c) := Ne.symm hcq
  by_cases hcd : c = d.delimiter
  · subst hcd
    have hcl : classify d d.delimiter = .DELIMITER := by
      simp [classify, hq, hqc, hesc, hcr, hcn]
    simp [step, hcl, emit]
  · by_cases hcs : c = ' '
    · subst hcs
      have hcl : classify d ' ' = .WS := by
        simp [classify, hq, hqc, hesc, hcr, hcn, hcd]
      simp [step, hcl, emit]
    · have hcl : classify d c = .CHAR := by
        simp [classify, hq, hqc, hesc, hcr, hcn, hcd, hcs]
      simp [step, hcl, emit]

/-- A delimiter after a closing quote finalizes the field. -/
theorem step_expect_delim (d : Dialect) (q : Char) (b : List Char)
    (l : List (List Char)) (fns : Option (List (List Char)))
    (hq : d.quotechar = some q) (hesc : d.escapechar = Option.none)
    (hqd : q ≠ d.delimiter) (hdr : d.delimiter ≠ '\r')
    (hdn : d.delimiter ≠ '\n') :
    step d ⟨.EXPECT_QUOTE_OR_FIELD_TERM, b, l, fns⟩ d.delimiter =
      .next ⟨.BEGIN_FIELD, [], l ++ [b], fns⟩ [] := by
  have hcl : classify d d.delimiter = .DELIMITER := by
    simp [classify, hq, hqd, hesc, hdr, hdn]
  simp [step, hcl, newField]

/-- Running the assembler from QUOTED_FIELD over the quote-doubled
encoding of a CR/LF-free field appends exactly that field to the buffer
and returns to QUOTED_FIELD. -/
theorem run_quoted_body (d : Dialect) (q : Char)
    (hq : d.quotechar = some q) (hesc : d.escapechar = Option.none) :
    ∀ (f : List Char), '\r' ∉ f → '\n' ∉ f →
    ∀ (b : List Char) (line : List (List Char))
      (fns : Option (List (List Char))) (rest : List Char),
      runReader d ⟨.QUOTED_FIELD, b, line, fns⟩
          (replaceChar f q [q, q] ++ rest) =
        runReader d ⟨.QUOTED_FIELD, b ++ f, line, fns⟩ rest := by
  intro f
  induction f with
  | nil =>
      intro _ _ b line fns rest
      simp [replaceChar]
  | cons c f2 ih =>
      intro hr hn b line fns rest
      have hr2 : '\r' ∉ f2 := fun h => hr (List.mem_cons_of_mem _ h)
      have hn2 : '\n' ∉ f2 := fun h => hn (List.mem_cons_of_mem _ h)
      have hcr : c ≠ '\r' := fun h => hr (by rw [h]; exact List.mem_cons_self _ _)
      have hcn : c ≠ '\n' := fun h => hn (by rw [h]; exact List.mem_cons_self _ _)
      by_cases hcq : c = q
      · subst hcq
        have e : replaceChar (c :: f2) c [c, c] ++ rest =
            c :: c :: (replaceChar f2 c [c, c] ++ rest) := by
          simp [replaceChar]
        rw [e, runReader_cons_next d _ _ c _ (step_quoted_quote d c b line fns hq),
          runReader_cons_next d _ _ c _ (step_expect_quote d c b line fns hq),
          ih hr2 hn2 (b ++ [c]) line fns rest]
        simp
      · have e : replaceChar (c :: f2) q [q, q] ++ rest =
            c :: (replaceChar f2 q [q, q] ++ rest) := by
          simp [replaceChar, hcq]
        rw [e, runReader_cons_next d _ _ c _
            (step_quoted_generic d q c b line fns hq hesc hcq hcr hcn),
          ih hr2 hn2 (b ++ [c]) line fns rest]
        simp

/-- Running the assembler from BEGIN_FIELD over the delimiter-joined
ALL+doublequote encodings of a non-empty list of CR/LF-free fields
finalizes exactly those fields as one row at end of input. -/
theorem run_encoded_fields (d : Dialect) (q : Char)
    (hq : d.quotechar = some q) (hesc : d.escapechar = Option.none)
    (hqd : q ≠ d.delimiter) (hdr : d.delimiter ≠ '\r')
    (hdn : d.delimiter ≠ '\n') :
    ∀ (fs : List (List Char)), fs ≠ [] →
      (∀ f ∈ fs, '\r' ∉ f ∧ '\n' ∉ f) →
    ∀ (line : List (List Char)) (fns : Option (List (List Char))),
      runReader d ⟨.BEGIN_FIELD, [], line, fns⟩
          (joinWith [d.delimiter] (fs.map (encField q))) =
        ⟨[line ++ fs], fnsUpdate fns (line ++ fs), true⟩ := by
  intro fs
  induction fs with
  | nil => intro h; exact absurd rfl h
  | cons f rest ih =>
      intro _ hfields line fns
      have hf := hfields f (List.mem_cons_self _ _)
      cases rest with
      | nil =>
          have e : joinWith [d.delimiter] ([f].map (encField q)) =
              q :: (replaceChar f q [q, q] ++ [q]) := by
            simp [joinWith, encField]
          rw [e, runReader_cons_next d _ _ q _ (step_begin_quote d q [] line fns hq),
            run_quoted_body d q hq hesc f hf.1 hf.2 [] line fns [q]]
          rw [show ([] : List Char) ++ f = f from rfl,
            show [q] = q :: ([] : List Char) from rfl,
            runReader_cons_next d _ _ q _ (step_quoted_quote d q f line fns hq),
            runReader_nil]
      | cons f2 r2 =>
          have e : joinWith [d.delimiter] ((f :: f2 :: r2).map (encField q)) =
              q :: (replaceChar f q [q, q] ++
                (q :: d.delimiter ::
                  joinWith [d.delimiter] ((f2 :: r2).map (encField q)))) := by
            simp [joinWith, encField]
          rw [e, runReader_cons_next d _ _ q _ (step_begin_quote d q [] line fns hq),
            run_quoted_body d q hq hesc f hf.1 hf.2 [] line fns _,
            show ([] : List Char) ++ f = f from rfl,
            runReader_cons_next d _ _ q _ (step_quoted_quote d q f line fns hq),
            runReader_cons_next d _ _ d.delimiter _
              (step_expect_delim d q f line fns hq hesc hqd hdr hdn),
            ih (by simp) (fun g hg => hfields g (List.mem_cons_of_mem _ hg))
              (line ++ [f]) fns]
          simp

/-- Construction of a writer over an ALL+doublequote dialect with no
escape char. -/
theorem mkWriter_all_double (d : Dialect) (q : Char)
    (hq : d.quotechar = some q) (hesc : d.escapechar = Option.none)
    (hqt : d.quoting = .qAll) (hdq : d.doublequote = true) :
    mkWriter d =
      .ok ⟨d, some [q, q], Option.none, Option.none, .allDouble⟩ := by
  simp [mkWriter, hesc, hq, hqt, hdq]

/-- The ALL+doublequote strategy encodes a string field by wrapping it and
doubling internal quote chars. -/
theorem quoteValue_all_double (w : WriterCfg) (q : Char)
    (hq : w.dialect.quotechar = some q)
    (hdqw : w.escapeDoublequote = some [q, q])
    (hstrat : w.strategy = .allDouble) (f : List Char) :
    quoteValue w (Value.vstr f) = .ok (encField q f) := by
  simp [quoteValue, hstrat, quoteAllDouble, noneThrows, hq, hdqw, Value.str,
    encField]

/-- Joining with a separator is the head plus the separator-prefixed
tail pieces. -/
theorem joinWith_cons_flatten (sep : List Char) :
    ∀ (xs : List (List Char)) (x : List Char),
      joinWith sep (x :: xs) = x ++ (xs.map (fun z => sep ++ z)).flatten := by
  intro xs
  induction xs with
  | nil => intro x; simp [joinWith]
  | cons y r ih =>
      intro x
      rw [joinWith, ih y]
      simp [List.append_assoc]

/-- The formatter tail loop over ALL+doublequote string fields. -/
theorem formatRest_all_double (w : WriterCfg) (q : Char)
    (hq : w.dialect.quotechar = some q)
    (hdqw : w.escapeDoublequote = some [q, q])
    (hstrat : w.strategy = .allDouble) :
    ∀ fs : List (List Char),
      formatRest w (fs.map Value.vstr) =
        .ok ((fs.map (fun f => [w.dialect.delimiter] ++ encField q f)).flatten) := by
  intro fs
  induction fs with
  | nil => simp [formatRest]
  | cons f rest ih =>
      simp [formatRest, quoteValue_all_double w q hq hdqw hstrat f, ih,
        List.append_assoc]

/-- A full row of string fields is formatted (with no pending terminator)
as the delimiter-joined ALL+doublequote field encodings. -/
theorem formatRow_all_double (w : WriterCfg) (q : Char)
    (hq : w.dialect.quotechar = some q)
    (hdqw : w.escapeDoublequote = some [q, q])
    (hstrat : w.strategy = .allDouble) :
    ∀ fs : List (List Char),
      formatRow w false (fs.map Value.vstr) =
        .ok (joinWith [w.dialect.delimiter] (fs.map (encField q))) := by
  intro fs
  cases fs with
  | nil => simp [formatRow, joinWith]
  | cons f rest =>
      simp only [List.map_cons]
      rw [joinWith_cons_flatten]
      simp [formatRow, quoteValue_all_double w q hq hdqw hstrat f,
        formatRest_all_double w q hq hdqw hstrat rest, List.map_map,
        Function.comp_def]

/-- C1, counterexample: the MINIMAL+escape dialect (doublequote disabled,
escapechar backslash — escapechar present as required) is internally
consistent, and the single row whose one field is a lone quote char
contains no line-terminator characters, yet formatting writes the
unwrapped text backslash-quote, which the reader rejects: the escape char
token enters ESCAPE and the following quote token hits the catch-all
bad_state, so parsing yields no row at all instead of the original row. -/
theorem roundtrip_minimal_escape_fails :
    (mkWriter minEscDialect).bind
        (fun w => formatRow w false [Value.vstr ['"']]) = .ok ['\\', '"'] ∧
    parse minEscDialect ['\\', '"'] = ⟨[], Option.none, false⟩ ∧
    (⟨[], Option.none, false⟩ : ReadResult) ≠
      ⟨[[['"']]], some [['"']], true⟩ := by
  decide

/-- C1, amended: round-trip holds for ALL+doublequote dialects — quoting
mode ALL, doublequote enabled, no escape char, quote char distinct from
the delimiter, delimiter not CR or LF — and any non-empty row whose
fields contain no CR and no LF: parsing the text formatted for the single
row yields exactly that row (and it becomes the fieldnames). -/
theorem roundtrip_all_doublequote (d : Dialect) (q : Char)
    (row : List (List Char)) (w : WriterCfg) (out : List Char)
    (hq : d.quotechar = some q) (hesc : d.escapechar = Option.none)
    (hqt : d.quoting = .qAll) (hdq : d.doublequote = true)
    (hqd : q ≠ d.delimiter) (hdr : d.delimiter ≠ '\r')
    (hdn : d.delimiter ≠ '\n') (hrow : row ≠ [])
    (hfields : ∀ f ∈ row, '\r' ∉ f ∧ '\n' ∉ f)
    (hw : mkWriter d = .ok w)
    (hout : formatRow w false (row.map Value.vstr) = .ok out) :
    parse d out = ⟨[row], some row, true⟩ := by
  have hw2 : w = ⟨d, some [q, q], Option.none, Option.none, .allDouble⟩ := by
    have h2 := mkWriter_all_double d q hq hesc hqt hdq
    rw [hw] at h2
    exact Except.ok.inj h2
  subst hw2
  have hfr := formatRow_all_double
    ⟨d, some [q, q], Option.none, Option.none, .allDouble⟩ q hq rfl rfl row
  rw [hout] at hfr
  have hout2 : out = joinWith [d.delimiter] (row.map (encField q)) :=
    Except.ok.inj hfr
  subst hout2
  have hrun := run_encoded_fields d q hq hesc hqd hdr hdn row hrow hfields
    [] Option.none
  simpa [parse, fnsUpdate] using hrun

/-- Witness for C1 at the concrete ALL+doublequote dialect and the row
with fields a"b and c,d, whose formatted text is "a""b","c,d". -/
theorem roundtrip_all_doublequote_witness :
    parse allDoubleDialect ("\"a\"\"b\",\"c,d\"".toList) =
      ⟨[[['a', '"', 'b'], ['c', ',', 'd']]],
       some [['a', '"', 'b'], ['c', ',', 'd']], true⟩ :=
  roundtrip_all_doublequote allDoubleDialect '"'
    [['a', '"', 'b'], ['c', ',', 'd']]
    ⟨allDoubleDialect, some ['"', '"'], Option.none, Option.none, .allDouble⟩
    ("\"a\"\"b\",\"c,d\"".toList)
    rfl rfl rfl rfl (by decide) (by decide) (by decide) (by decide)
    (by decide) (by decide) (by decide)

/-- C2: parsing "Column1,Column2\r\n1,asdf\r\n" under the default dialect.
The first two rows and the fieldnames are as the claim states, but the
source's new_field() unconditionally appends the (empty) buffer before the
`if line` guard of new_line(), so at EOF after a trailing terminator a
third row consisting of one empty field is yielded as well: the guard that
should suppress the synthetic empty row can never fire. -/
theorem trailing_terminator_third_row :
    parse excel ("Column1,Column2\r\n1,asdf\r\n".toList) =
      ⟨[["Column1".toList, "Column2".toList], [['1'], "asdf".toList], [[]]],
       some ["Column1".toList, "Column2".toList], true⟩ ∧
    ([["Column1".toList, "Column2".toList], [['1'], "asdf".toList], [[]]] :
        List (List (List Char))) ≠
      [["Column1".toList, "Column2".toList], [['1'], "asdf".toList]] := by
  decide

/-- C3: under QUOTE_ALL with doublequote disabled and escape char
backslash, the value a"b is encoded by the source as "a""b" (the internal
quote char is doubled, because _quote_all_escape reads
self._escape_doublequote), not as "a\"b" (escapechar+quotechar) as the
claim states. -/
theorem quote_all_escape_doubles_quotes :
    (mkWriter allEscDialect).bind
        (fun w => quoteValue w (Value.vstr ['a', '"', 'b'])) =
      .ok ['"', 'a', '"', '"', 'b', '"'] ∧
    (Except.ok ['"', 'a', '"', '"', 'b', '"'] : Except WErr (List Char)) ≠
      .ok ['"', 'a', '\\', '"', 'b', '"'] := by
  decide

/-- C9: scanner classification is first-match-wins in the fixed order
quote char, escape char, CR, LF, delimiter, space, generic CHAR: each
token kind is produced exactly when its test holds and every earlier test
fails; in particular a character equal to the quote char is classified
QUOTE even when it also equals the delimiter. -/
theorem classify_first_match (d : Dialect) (c : Char) :
    (d.quotechar = some d.delimiter → classify d d.delimiter = .QUOTE) ∧
    (classify d c = .QUOTE ↔ d.quotechar = some c) ∧
    (classify d c = .ESCAPE_CHAR ↔
      (d.escapechar = some c ∧ d.quotechar ≠ some c)) ∧
    (classify d c = .CR ↔
      (c = '\r' ∧ d.quotechar ≠ some c ∧ d.escapechar ≠ some c)) ∧
    (classify d c = .LF ↔
      (c = '\n' ∧ d.quotechar ≠ some c ∧ d.escapechar ≠ some c ∧ c ≠ '\r')) ∧
    (classify d c = .DELIMITER ↔
      (c = d.delimiter ∧ d.quotechar ≠ some c ∧ d.escapechar ≠ some c ∧
        c ≠ '\r' ∧ c ≠ '\n')) ∧
    (classify d c = .WS ↔
      (c = ' ' ∧ d.quotechar ≠ some c ∧ d.escapechar ≠ some c ∧
        c ≠ '\r' ∧ c ≠ '\n' ∧ c ≠ d.delimiter)) ∧
    (classify d c = .CHAR ↔
      (d.quotechar ≠ some c ∧ d.escapechar ≠ some c ∧
        c ≠ '\r' ∧ c ≠ '\n' ∧ c ≠ d.delimiter ∧ c ≠ ' ')) := by
  refine ⟨?_, ?_⟩
  · intro h
    simp [classify, h]
  · unfold classify
    split_ifs <;> simp_all

/-- Witness for C9 at a concrete degenerate dialect whose delimiter equals
its quote char: the double quote is classified QUOTE. -/
theorem classify_first_match_witness :
    classify coincideDialect coincideDialect.delimiter = .QUOTE :=
  (classify_first_match coincideDialect 'x').1 rfl

/-- C6: a QUOTE token in state FIELD and a CHAR token in state
EXPECT_QUOTE_OR_FIELD_TERM each hit bad_state, which raises MalformedRow
synchronously; once a step fails the pass ends at that character with no
further rows, whatever input remains. -/
theorem malformed_row_detection (d : Dialect) (c : Char) (conf : RConf)
    (cs : List Char) :
    (classify d c = .QUOTE → conf.state = .FIELD → step d conf c = .fail) ∧
    (classify d c = .CHAR → conf.state = .EXPECT_QUOTE_OR_FIELD_TERM →
      step d conf c = .fail) ∧
    (step d conf c = .fail →
      runReader d conf (c :: cs) = ⟨[], conf.fieldnames, false⟩) := by
  refine ⟨?_, ?_, ?_⟩
  · intro h hs
    simp [step, h, hs]
  · intro h hs
    simp [step, h, hs]
  · intro h
    simp [runReader, h]

/-- Witness for C6: a quote char inside an unquoted field under the excel
dialect fails, and the pass yields nothing further regardless of the rest
of the input. -/
theorem malformed_row_detection_witness :
    step excel ⟨.FIELD, ['a'], [], Option.none⟩ '"' = .fail ∧
    runReader excel ⟨.FIELD, ['a'], [], Option.none⟩ ('"' :: "x,y".toList) =
      ⟨[], Option.none, false⟩ := by
  refine ⟨?_, ?_⟩
  · exact (malformed_row_detection excel '"' ⟨.FIELD, ['a'], [], Option.none⟩
      "x,y".toList).1 (by decide) rfl
  · exact (malformed_row_detection excel '"' ⟨.FIELD, ['a'], [], Option.none⟩
      "x,y".toList).2.2
      ((malformed_row_detection excel '"' ⟨.FIELD, ['a'], [], Option.none⟩
        "x,y".toList).1 (by decide) rfl)

/-- C10: a WHITESPACE token in state EXPECT_QUOTE_OR_FIELD_TERM is not an
error: the space is appended to the field buffer through emit and the
state stays EXPECT_QUOTE_OR_FIELD_TERM; concretely, parsing a quoted field
followed by a space and a delimiter finalizes the field as the quoted text
plus the trailing space. -/
theorem ws_after_closing_quote (d : Dialect) (b : List Char)
    (l : List (List Char)) (fns : Option (List (List Char))) :
    (classify d ' ' = .WS →
      step d ⟨.EXPECT_QUOTE_OR_FIELD_TERM, b, l, fns⟩ ' ' =
        .next ⟨.EXPECT_QUOTE_OR_FIELD_TERM, b ++ [' '], l, fns⟩ []) ∧
    (parse excel ("\"a\" ,b".toList)).rows = [[['a', ' '], ['b']]] := by
  refine ⟨?_, by decide⟩
  intro h
  simp [step, h, emit]

/-- Witness for C10: the space after a closing quote in the excel dialect
is appended and the state is unchanged. -/
theorem ws_after_closing_quote_witness :
    step excel ⟨.EXPECT_QUOTE_OR_FIELD_TERM, ['a'], [], Option.none⟩ ' ' =
      .next ⟨.EXPECT_QUOTE_OR_FIELD_TERM, ['a', ' '], [], Option.none⟩ [] :=
  (ws_after_closing_quote excel ['a'] [] Option.none).1 (by decide)

/-- C4, counterexample: a Writer over QUOTE_NONE without an escape char
constructs successfully (the claim says construction fails); the failure
surfaces only from a later writerow whose value contains the delimiter. -/
theorem quote_none_constructs :
    mkWriter noQuoteDialect =
      .ok ⟨noQuoteDialect, some ['"', '"'], Option.none, Option.none, .noQuote⟩ ∧
    (mkWriter noQuoteDialect).bind
        (fun w => quoteValue w (Value.vstr ['a', ',', 'b'])) =
      .error .valueError := by
  decide

/-- C4, amended: with QUOTE_NONE and no escape char the writer constructs
successfully, and encoding a value raises ValueError exactly when the
value contains the delimiter (values without the delimiter pass through
unchanged). -/
theorem quote_none_deferred_failure (d : Dialect) (v : Value)
    (hq : d.quoting = .qNone) (he : d.escapechar = Option.none) :
    mkWriter d =
      .ok ⟨d, d.quotechar.map (fun q => [q, q]), Option.none, Option.none,
        .noQuote⟩ ∧
    quoteValue
        ⟨d, d.quotechar.map (fun q => [q, q]), Option.none, Option.none,
          .noQuote⟩ v =
      (if d.delimiter ∈ v.str then .error .valueError else .ok v.str) := by
  constructor
  · simp [mkWriter, he, hq]
  · by_cases hm : d.delimiter ∈ v.str <;>
      simp [quoteValue, quoteNone, noneThrows, hm]

/-- Witness for C4 at the concrete QUOTE_NONE dialect and a value without
the delimiter. -/
theorem quote_none_deferred_failure_witness :
    mkWriter noQuoteDialect =
      .ok ⟨noQuoteDialect, noQuoteDialect.quotechar.map (fun q => [q, q]),
        Option.none, Option.none, .noQuote⟩ ∧
    quoteValue
        ⟨noQuoteDialect, noQuoteDialect.quotechar.map (fun q => [q, q]),
          Option.none, Option.none, .noQuote⟩ (Value.vstr ['x']) =
      (if noQuoteDialect.delimiter ∈ (Value.vstr ['x']).str then
        .error .valueError else .ok (Value.vstr ['x']).str) :=
  quote_none_deferred_failure noQuoteDialect (Value.vstr ['x']) rfl rfl

/-- C5, counterexample: with a backslash escape char, the input a\b,c
parses to the single field ab,c — after the escaped b the state is still
ESCAPE, so the following delimiter is appended literally instead of
splitting the fields as it would if the escape consumed exactly one
character and returned to FIELD. -/
theorem escape_sticky_counterexample :
    (parse escDialect ("a\\b,c".toList)).rows = [[['a', 'b', ',', 'c']]] ∧
    ([[['a', 'b', ',', 'c']]] : List (List (List Char))) ≠
      [[['a', 'b'], ['c']]] := by
  decide

/-- C5, amended: in state ESCAPE, CHAR and WHITESPACE tokens append their
literal character and the state remains ESCAPE (emit only promotes
BEGIN_FIELD to FIELD); a DELIMITER appends the delimiter and remains
ESCAPE; a second escape char appends the escape char and remains ESCAPE; a
QUOTE token is a bad_state error; CR is dropped; LF finalizes field and
row. The escape is sticky for the rest of the line rather than consuming
exactly one character. -/
theorem escape_state_transitions (d : Dialect) (e c : Char) (b : List Char)
    (l : List (List Char)) (fns : Option (List (List Char)))
    (he : d.escapechar = some e) :
    (classify d c = .CHAR →
      step d ⟨.ESCAPE, b, l, fns⟩ c = .next ⟨.ESCAPE, b ++ [c], l, fns⟩ []) ∧
    (classify d c = .WS →
      step d ⟨.ESCAPE, b, l, fns⟩ c = .next ⟨.ESCAPE, b ++ [c], l, fns⟩ []) ∧
    (classify d c = .DELIMITER →
      step d ⟨.ESCAPE, b, l, fns⟩ c =
        .next ⟨.ESCAPE, b ++ [d.delimiter], l, fns⟩ []) ∧
    (classify d c = .ESCAPE_CHAR →
      step d ⟨.ESCAPE, b, l, fns⟩ c = .next ⟨.ESCAPE, b ++ [e], l, fns⟩ []) ∧
    (classify d c = .QUOTE → step d ⟨.ESCAPE, b, l, fns⟩ c = .fail) ∧
    (classify d c = .CR →
      step d ⟨.ESCAPE, b, l, fns⟩ c = .next ⟨.ESCAPE, b, l, fns⟩ []) ∧
    (classify d c = .LF →
      step d ⟨.ESCAPE, b, l, fns⟩ c =
        .next ⟨.BEGIN_FIELD, [], [], fnsUpdate fns (l ++ [b])⟩ [l ++ [b]]) := by
  refine ⟨?_, ?_, ?_, ?_, ?_, ?_, ?_⟩ <;> intro h <;>
    simp [step, h, emit, newField, newLine, fnsUpdate, he]

/-- Witness for C5 at the excel dialect with a backslash escape char: a
generic character is appended while the state stays ESCAPE. -/
theorem escape_state_transitions_witness :
    step escDialect ⟨.ESCAPE, [], [], Option.none⟩ 'x' =
      .next ⟨.ESCAPE, ['x'], [], Option.none⟩ [] :=
  (escape_state_transitions escDialect '\\' 'x' [] [] Option.none rfl).1
    (by decide)

/-- C7, counterexample: in the degenerate MINIMAL+escape dialect whose
escape char equals the delimiter, the value a"b contains no delimiter but
is still wrapped, because the wrap test runs on the quote-replaced value
where the inserted escape chars are delimiters. -/
theorem minimal_escape_wrap_counterexample :
    (mkWriter minEscDelimDialect).bind
        (fun w => quoteValue w (Value.vstr ['a', '"', 'b'])) =
      .ok ['"', 'a', ',', '"', 'b', '"'] ∧
    ¬ (',' ∈ ['a', '"', 'b']) := by
  decide

/-- C7, amended: under MINIMAL+escape with the escape char different from
the delimiter, every internal quote char is replaced by
escapechar+quotechar regardless of wrapping, and the value is wrapped
exactly when it contains the delimiter. -/
theorem minimal_escape_encoding (d : Dialect) (q e : Char) (s : List Char)
    (hq : d.quotechar = some q) (he : d.escapechar = some e)
    (hqt : d.quoting = .qMinimal) (hdq : d.doublequote = false)
    (hed : e ≠ d.delimiter) :
    mkWriter d =
      .ok ⟨d, d.quotechar.map (fun x => [x, x]), some [e, q],
        some [e, d.delimiter], .minimalEscape⟩ ∧
    quoteValue
        ⟨d, d.quotechar.map (fun x => [x, x]), some [e, q],
          some [e, d.delimiter], .minimalEscape⟩ (Value.vstr s) =
      .ok (if d.delimiter ∈ s then [q] ++ replaceChar s q [e, q] ++ [q]
           else replaceChar s q [e, q]) := by
  have hmem : d.delimiter ∈ replaceChar s q [e, q] ↔ d.delimiter ∈ s :=
    mem_replaceChar_iff d.delimiter q e (Ne.symm hed) s
  constructor
  · simp [mkWriter, he, hq, hqt, hdq, noneThrows]
  · by_cases hqs : q ∈ s
    · simp [quoteValue, quoteMinimalEscape, noneThrows, hq, hqs, Value.str,
        hmem]
      split <;> rfl
    · have hrep : replaceChar s q [e, q] = s :=
        replaceChar_of_not_mem s q [e, q] hqs
      simp [quoteValue, quoteMinimalEscape, noneThrows, hq, hqs, Value.str,
        hrep]
      split <;> rfl

/-- Witness for C7 at the backslash MINIMAL+escape dialect and the value
a"b: replaced but, containing no delimiter, not wrapped. -/
theorem minimal_escape_encoding_witness :
    mkWriter minEscDialect =
      .ok ⟨minEscDialect, minEscDialect.quotechar.map (fun x => [x, x]),
        some ['\\', '"'], some ['\\', ','], .minimalEscape⟩ ∧
    quoteValue
        ⟨minEscDialect, minEscDialect.quotechar.map (fun x => [x, x]),
          some ['\\', '"'], some ['\\', ','], .minimalEscape⟩
        (Value.vstr ['a', '"', 'b']) =
      .ok (if minEscDialect.delimiter ∈ ['a', '"', 'b'] then
            ['"'] ++ replaceChar ['a', '"', 'b'] '"' ['\\', '"'] ++ ['"']
           else replaceChar ['a', '"', 'b'] '"' ['\\', '"']) :=
  minimal_escape_encoding minEscDialect '"' '\\' ['a', '"', 'b'] rfl rfl rfl
    rfl (by decide)

/-- C8: the total sink output of a sequence of writerow calls on a fresh
writer is the per-row encodings joined by the line terminator placed
between consecutive rows — prepended before each row after the first,
never before the first row or after the last. -/
theorem writerows_lazy_terminator (w : WriterCfg) (rows : List (List Value))
    (encs : List (List Char)) (h : rowsEnc w rows = .ok encs) :
    writerows w ⟨false, []⟩ rows =
      .ok ⟨!rows.isEmpty, joinWith w.dialect.lineterminator encs⟩ := by
  have h2 := writerows_out w rows ⟨false, []⟩ encs h
  simpa [lazyJoin_false_eq_joinWith] using h2

/-- Witness for C8: two single-field rows under the excel writer produce
the two encodings separated by one CRLF, with none trailing. -/
theorem writerows_lazy_terminator_witness :
    writerows excelWriter ⟨false, []⟩ [[Value.vstr ['a']], [Value.vstr ['b']]] =
      .ok ⟨true, ['a', '\r', '\n', 'b']⟩ :=
  writerows_lazy_terminator excelWriter [[Value.vstr ['a']], [Value.vstr ['b']]]
    [['a'], ['b']] (by decide)

end Acsv
